import Mathlib

/-!
Verification of the web-storage facade (src/web-storage.ts) and its in-memory
backing store (src/memory-storage.ts).

Strings are modelled as lists of characters.  The backing store
(a Storage object: localStorage, sessionStorage or MemoryStorage) is modelled
as an ordered association list, matching the insertion-ordered Map used by
MemoryStorage: setItem overwrites in place or appends, removeItem deletes,
key enumeration follows list order.  Exceptions are modelled with Except;
code that catches every exception (the try/catch in WebStorage.set) is
translated to a function that always returns an ok value.
-/

namespace WebStorageModel

/-- Keys and stored texts: a string as a list of characters. -/
abbrev Str := List Char

/-- Line terminators: the characters that the dot of a JavaScript regular
expression does not match (\n, \r, U+2028, U+2029). -/
def isLineTerm (c : Char) : Bool :=
  c = '\n' || c = '\r' || c = '\u2028' || c = '\u2029'

/-- Evaluation of the test of the regular expression built by the source line
new RegExp with pattern dot-plus slash dot-plus, used by getStorageKeys for the
null namespace: true iff some slash in the string has a dot-matchable
(non-line-terminator) character immediately before it and immediately after it. -/
def hasVisibleSlash : Str → Bool
  | a :: b :: c :: rest =>
      (b == '/' && !isLineTerm a && !isLineTerm c) || hasVisibleSlash (b :: c :: rest)
  | _ => false

/-- The String.startsWith check of the source, on the character-list model:
startsWithKey l pat is true iff pat is an initial segment of l. -/
def startsWithKey : Str → Str → Bool
  | _, [] => true
  | [], _ :: _ => false
  | c :: cs, p :: ps => c == p && startsWithKey cs ps

/-- One entry of the backing store: physical key and stored text. -/
abbrev Entry := Str × Str

/-- The backing store contents, in enumeration order (the insertion-ordered
Map of MemoryStorage). -/
abbrev Store := List Entry

/-- MemoryStorage.getItem: value of the entry with the given key, none when
absent (the null result of the source). -/
def Store.getItem : Store → Str → Option Str
  | [], _ => none
  | (k', v) :: rest, k => if k' = k then some v else Store.getItem rest k

/-- Whether the store holds an entry with the given key (Map.has). -/
def Store.hasKey : Store → Str → Bool
  | [], _ => false
  | (k', _) :: rest, k => k' == k || Store.hasKey rest k

/-- MemoryStorage.setItem (Map.set): overwrite the entry in place when the key
is present, otherwise append a new entry at the end. -/
def Store.setItem : Store → Str → Str → Store
  | [], k, v => [(k, v)]
  | (k', v') :: rest, k, v =>
      if k' = k then (k, v) :: rest else (k', v') :: Store.setItem rest k v

/-- MemoryStorage.removeItem (Map.delete): drop the entry with the given key. -/
def Store.removeItem : Store → Str → Store
  | [], _ => []
  | (k', v) :: rest, k =>
      if k' = k then Store.removeItem rest k else (k', v) :: Store.removeItem rest k

/-- MemoryStorage.key: the key at the given position of the enumeration, with
the source expression array-index-then-or-null, so a missing position gives
null and an empty-string key is also collapsed to null by the or. -/
def memKey (st : Store) (index : Int) : Option Str :=
  match index with
  | .ofNat n =>
      match (st.map Prod.fst).get? n with
      | some k => if k = [] then none else some k
      | none => none
  | .negSucc _ => none

/-- Faults that the external collaborators can raise: the backing store's
capacity fault and the serialization faults of the JSON codec. -/
inductive Fault where
  | quotaExceeded
  | badValue
  | badText
deriving DecidableEq, Repr

/-- A backing store together with an abstract capacity bound: none means no
limit (MemoryStorage), some m means at most m entries (a quota-limited native
store).  Overwriting an existing key always succeeds; adding a new entry past
the bound raises the capacity fault. -/
structure QuotaStore where
  entries : Store
  quota : Option Nat
deriving DecidableEq, Repr

/-- setItem on the quota-limited backing store: ok with the updated contents,
or the capacity fault. -/
def QuotaStore.setItem (qst : QuotaStore) (k v : Str) : Except Fault QuotaStore :=
  if qst.entries.hasKey k then .ok ⟨qst.entries.setItem k v, qst.quota⟩
  else
    match qst.quota with
    | none => .ok ⟨qst.entries.setItem k v, none⟩
    | some m =>
        if qst.entries.length < m then .ok ⟨qst.entries.setItem k v, some m⟩
        else .error .quotaExceeded

/-- The constructor line currentNamespace = namespace or-else null: the empty
string is falsy in JavaScript, so it is normalized to the null namespace. -/
def normNamespace : Option Str → Option Str
  | some [] => none
  | some n => some n
  | none => none

/-- WebStorage.hasNamespace: the namespace is not null. -/
def hasNamespaceF (ns : Option Str) : Bool :=
  ns.isSome

/-- WebStorage.keyWithNamespace: prefix the namespace and a slash when a
namespace is present, otherwise the key itself. -/
def keyWithNamespace (ns : Option Str) (key : Str) : Str :=
  match ns with
  | some n => n ++ '/' :: key
  | none => key

/-- The filter condition of the getStorageKeys loop: a physical key belongs to
the view of a named namespace iff it starts with the namespace and a slash; it
belongs to the null view iff the regular-expression test fails on it. -/
def visibleKey (ns : Option Str) (key : Str) : Bool :=
  match ns with
  | some n => startsWithKey key (n ++ ['/'])
  | none => !hasVisibleSlash key

/-- The logical key the getStorageKeys loop pushes for a visible physical key:
for a named namespace the substr past the namespace and the slash, for the
null namespace the physical key itself. -/
def logicalKey (ns : Option Str) (key : Str) : Str :=
  match ns with
  | some n => key.drop (n.length + 1)
  | none => key

/-- The getStorageKeys loop over the enumerated physical keys. -/
def filterKeys (ns : Option Str) : List Str → List Str
  | [] => []
  | key :: rest =>
      if visibleKey ns key then logicalKey ns key :: filterKeys ns rest
      else filterKeys ns rest

/-- WebStorage.getStorageKeys: logical keys of the facade's view, in backing
store enumeration order. -/
def getStorageKeys (ns : Option Str) (st : Store) : List Str :=
  filterKeys ns (st.map Prod.fst)

/-- WebStorage.length: the number of filtered logical keys. -/
def lengthOf (ns : Option Str) (st : Store) : Nat :=
  (getStorageKeys ns st).length

/-- WebStorage.get: look the encoded key up; absent gives the default, present
gives the JSON.parse of the stored text (a parse fault propagates). -/
def getVal {V : Type} (parse : Str → Except Fault V) (ns : Option Str) (st : Store)
    (k : Str) (dflt : V) : Except Fault V :=
  match st.getItem (keyWithNamespace ns k) with
  | some s => parse s
  | none => .ok dflt

/-- WebStorage.has: the encoded key has a non-null item. -/
def hasVal (ns : Option Str) (st : Store) (k : Str) : Bool :=
  (st.getItem (keyWithNamespace ns k)).isSome

/-- WebStorage.set: inside one try block, JSON.stringify the value and write
the text at the encoded key; any exception raised by either step is caught and
turned into the result false with the store untouched.  The code never lets a
fault escape, so the result is always an ok value. -/
def setVal {V : Type} (stringify : V → Except Fault Str) (ns : Option Str)
    (qst : QuotaStore) (k : Str) (v : V) : Except Fault (Bool × QuotaStore) :=
  match stringify v with
  | .error _ => .ok (false, qst)
  | .ok s =>
      match qst.setItem (keyWithNamespace ns k) s with
      | .error _ => .ok (false, qst)
      | .ok qst' => .ok (true, qst')

/-- A JavaScript value as returned by the facade's key method: the source
indexes the filtered key array, so a hit gives a string and a miss gives
undefined. -/
inductive JsValue where
  | str (s : Str)
  | nullv
  | jsUndefined
deriving DecidableEq, Repr

/-- WebStorage.key: index into getStorageKeys; out of range gives undefined
(a JavaScript array read past the end), never null. -/
def keyAt (ns : Option Str) (st : Store) (index : Int) : JsValue :=
  match index with
  | .ofNat n =>
      match (getStorageKeys ns st).get? n with
      | some s => .str s
      | none => .jsUndefined
  | .negSucc _ => .jsUndefined

/-- WebStorage.clear: remove every visible logical key, re-encoded, one by
one. -/
def clearFacade (ns : Option Str) (st : Store) : Store :=
  (getStorageKeys ns st).foldl (fun acc k => acc.removeItem (keyWithNamespace ns k)) st

/-- Declared member names of the WebStorage class object: instance fields,
prototype methods and accessors, and the Object prototype members, all of
which the key-in-target test of the proxy traps reports as present. -/
def declaredMembers : List Str :=
  [ "storage".data, "currentNamespace".data, "hasNamespace".data, "namespace".data,
    "length".data, "get".data, "key".data, "keys".data, "has".data, "set".data,
    "delete".data, "clear".data, "keyWithNamespace".data, "getStorageKeys".data,
    "createProxy".data, "constructor".data, "hasOwnProperty".data,
    "isPrototypeOf".data, "propertyIsEnumerable".data, "toLocaleString".data,
    "toString".data, "valueOf".data, "__proto__".data, "__defineGetter__".data,
    "__defineSetter__".data, "__lookupGetter__".data, "__lookupSetter__".data ]

/-- Decidable equality of exception-carrying results. -/
instance {ε α : Type} [DecidableEq ε] [DecidableEq α] : DecidableEq (Except ε α) := fun x y =>
  match x, y with
  | .error e, .error f => decidable_of_iff (e = f) (by simp)
  | .error _, .ok _ => isFalse (by simp)
  | .ok _, .error _ => isFalse (by simp)
  | .ok a, .ok b => decidable_of_iff (a = b) (by simp)

/-- The value produced by the get trap of the proxy for a string key: a
declared member shadows the store; otherwise the trap parses the stored text,
and when the item is absent JSON.parse receives null (which parses to the
JavaScript null). -/
inductive DynVal (V : Type) where
  | member (name : Str)
  | parsed (r : Except Fault V)
  | parsedAbsent
deriving DecidableEq, Repr

/-- The get trap of createProxy on a string key. -/
def proxyGet {V : Type} (parse : Str → Except Fault V) (ns : Option Str) (st : Store)
    (k : Str) : DynVal V :=
  if k ∈ declaredMembers then .member k
  else
    match st.getItem (keyWithNamespace ns k) with
    | some s => .parsed (parse s)
    | none => .parsedAbsent

/-- The synchronous iterator of the facade: snapshot the filtered keys, then
yield the pair of the proxy read of the key and the key (the async iterator
has the same body). -/
def iterPairs {V : Type} (parse : Str → Except Fault V) (ns : Option Str) (st : Store) :
    List (DynVal V × Str) :=
  (getStorageKeys ns st).map (fun k => (proxyGet parse ns st k, k))

/-- The comparison sequence of the iteration claim: call the explicit get for
every key of the same snapshot, with an arbitrary default. -/
def getPairs {V : Type} (parse : Str → Except Fault V) (ns : Option Str) (st : Store)
    (dflt : V) : List (DynVal V × Str) :=
  (getStorageKeys ns st).map (fun k => (DynVal.parsed (getVal parse ns st k dflt), k))

/-- A demonstration value domain for concrete instances of the abstract
serialization codec: numbers serialize, and cyclic stands for a value the
serializer rejects (a self-referential object under JSON.stringify). -/
inductive DemoVal where
  | num (n : Nat)
  | cyclic
deriving DecidableEq, Repr

/-- Demonstration serializer: a number n becomes n stars, cyclic faults. -/
def demoStringify : DemoVal → Except Fault Str
  | .num n => .ok (List.replicate n '*')
  | .cyclic => .error .badValue

/-- Demonstration deserializer, the inverse of demoStringify on star runs. -/
def demoParse (s : Str) : Except Fault DemoVal :=
  if s.all (fun c => c == '*') then .ok (.num s.length) else .error .badText

/-- Characters that keep a namespace or logical key clear of the filter
subtleties: no slash and no line terminator. -/
def cleanChars (s : Str) : Bool :=
  s.all (fun c => !(c == '/') && !isLineTerm c)

/-- A well-behaved namespace: null, or a non-empty string of clean
characters. -/
def goodNs : Option Str → Bool
  | none => true
  | some n => !n.isEmpty && cleanChars n

/-- A well-behaved logical key: non-empty and made of clean characters. -/
def goodKey (k : Str) : Bool :=
  !k.isEmpty && cleanChars k

theorem cleanChars_not_slash {s : Str} (h : cleanChars s = true) : '/' ∉ s := by
  intro hmem
  have := List.all_eq_true.mp h _ hmem
  simp at this

theorem cleanChars_not_lineTerm {s : Str} (h : cleanChars s = true) {c : Char}
    (hc : c ∈ s) : isLineTerm c = false := by
  have := List.all_eq_true.mp h _ hc
  simp only [Bool.and_eq_true, Bool.not_eq_true'] at this
  exact this.2

theorem startsWithKey_iff (l pat : Str) : startsWithKey l pat = true ↔ ∃ t, l = pat ++ t := by
  induction pat generalizing l with
  | nil => simp [startsWithKey]
  | cons p ps ih =>
    cases l with
    | nil => simp [startsWithKey]
    | cons c cs => simp [startsWithKey, ih]

theorem slash_split_inj (m : Str) : ∀ (n u w : Str), '/' ∉ m → '/' ∉ n →
    m ++ '/' :: u = n ++ '/' :: w → m = n ∧ u = w := by
  induction m with
  | nil =>
    intro n u w _ hn h
    cases n with
    | nil => simpa using h
    | cons d n' =>
      simp only [List.nil_append, List.cons_append, List.cons.injEq] at h
      exact absurd (h.1 ▸ List.mem_cons_self d n') hn
  | cons c m' ih =>
    intro n u w hm hn h
    cases n with
    | nil =>
      simp only [List.cons_append, List.nil_append, List.cons.injEq] at h
      exact absurd (h.1 ▸ List.mem_cons_self c m') hm
    | cons d n' =>
      simp only [List.cons_append, List.cons.injEq] at h
      obtain ⟨rfl, h2⟩ := h
      have hrec := ih n' u w (fun hc => hm (List.mem_cons_of_mem _ hc))
        (fun hc => hn (List.mem_cons_of_mem _ hc)) h2
      exact ⟨by rw [hrec.1], hrec.2⟩

theorem hasVisibleSlash_cons {l : Str} (x : Char) (h : hasVisibleSlash l = true) :
    hasVisibleSlash (x :: l) = true := by
  match l with
  | [] => simp [hasVisibleSlash] at h
  | [a] => simp [hasVisibleSlash] at h
  | a :: b :: rest => simp [hasVisibleSlash, h]

theorem hasVisibleSlash_window {a c : Char} (ha : isLineTerm a = false)
    (hc : isLineTerm c = false) : ∀ (x y : Str),
    hasVisibleSlash (x ++ a :: '/' :: c :: y) = true := by
  intro x
  induction x with
  | nil => intro y; simp [hasVisibleSlash, ha, hc]
  | cons x0 xs ih => intro y; exact hasVisibleSlash_cons x0 (ih y)

theorem filterKeys_none_eq (ks : List Str) :
    filterKeys none ks = ks.filter (visibleKey none) := by
  induction ks with
  | nil => rfl
  | cons p rest ih => simp only [filterKeys, List.filter_cons, ih]; rfl

theorem mem_filterKeys_none {k : Str} {ks : List Str} (h : k ∈ filterKeys none ks) :
    hasVisibleSlash k = false ∧ k ∈ ks := by
  rw [filterKeys_none_eq] at h
  have := List.mem_filter.mp h
  refine ⟨?_, this.1⟩
  have hv := this.2
  simpa [visibleKey] using hv

theorem mem_filterKeys_some {k n : Str} : ∀ {ks : List Str},
    k ∈ filterKeys (some n) ks →
    ∃ p ∈ ks, startsWithKey p (n ++ ['/']) = true ∧ k = p.drop (n.length + 1) := by
  intro ks
  induction ks with
  | nil => intro h; simp [filterKeys] at h
  | cons p rest ih =>
    intro h
    simp only [filterKeys] at h
    split at h
    · rename_i hv
      rcases List.mem_cons.mp h with h1 | h1
      · exact ⟨p, List.mem_cons_self _ _, by simpa [visibleKey] using hv,
          by simpa [logicalKey] using h1⟩
      · obtain ⟨q, hq, h2, h3⟩ := ih h1
        exact ⟨q, List.mem_cons_of_mem _ hq, h2, h3⟩
    · obtain ⟨q, hq, h2, h3⟩ := ih h
      exact ⟨q, List.mem_cons_of_mem _ hq, h2, h3⟩

theorem getItem_of_mem {p : Str} : ∀ {st : Store}, p ∈ st.map Prod.fst →
    ∃ s, st.getItem p = some s := by
  intro st
  induction st with
  | nil => intro h; simp at h
  | cons e rest ih =>
    obtain ⟨k', v⟩ := e
    intro h
    rw [List.map_cons] at h
    by_cases he : k' = p
    · exact ⟨v, by simp [Store.getItem, he]⟩
    · rcases List.mem_cons.mp h with h2 | h2
      · exact absurd h2.symm he
      · obtain ⟨s, hs⟩ := ih h2
        exact ⟨s, by simp [Store.getItem, he, hs]⟩

theorem getItem_setItem_self : ∀ (st : Store) (k v : Str),
    Store.getItem (Store.setItem st k v) k = some v := by
  intro st
  induction st with
  | nil => intro k v; simp [Store.setItem, Store.getItem]
  | cons e rest ih =>
    obtain ⟨k', v'⟩ := e
    intro k v
    by_cases he : k' = k
    · simp [Store.setItem, Store.getItem, he]
    · simp [Store.setItem, Store.getItem, he, ih]

theorem getItem_setItem_ne {q k : Str} (h : q ≠ k) : ∀ (st : Store) (v : Str),
    Store.getItem (Store.setItem st k v) q = Store.getItem st q := by
  intro st
  induction st with
  | nil => intro v; simp [Store.setItem, Store.getItem, Ne.symm h]
  | cons e rest ih =>
    obtain ⟨k', v'⟩ := e
    intro v
    by_cases he : k' = k
    · subst he
      simp [Store.setItem, Store.getItem, Ne.symm h]
    · simp only [Store.setItem, if_neg he, Store.getItem]
      by_cases hq : k' = q
      · simp [hq]
      · simp [hq, ih]

theorem getItem_removeItem_ne {q p : Str} (h : q ≠ p) : ∀ (st : Store),
    Store.getItem (Store.removeItem st q) p = Store.getItem st p := by
  intro st
  induction st with
  | nil => rfl
  | cons e rest ih =>
    obtain ⟨k', v'⟩ := e
    by_cases he : k' = q
    · simp [Store.removeItem, Store.getItem, he, ih, fun hh : q = p => h hh]
    · simp only [Store.removeItem, if_neg he, Store.getItem]
      by_cases hp : k' = p
      · simp [hp]
      · simp [hp, ih]

theorem mapFst_setItem : ∀ (st : Store) (k v : Str),
    (Store.setItem st k v).map Prod.fst =
      if Store.hasKey st k then st.map Prod.fst else st.map Prod.fst ++ [k] := by
  intro st
  induction st with
  | nil => intro k v; rfl
  | cons e rest ih =>
    obtain ⟨k', v'⟩ := e
    intro k v
    by_cases he : k' = k
    · simp [Store.setItem, Store.hasKey, he]
    · simp only [Store.setItem, if_neg he, Store.hasKey, List.map_cons]
      have : (k' == k) = false := by simpa using he
      rw [this]
      simp only [Bool.false_or, ih]
      split <;> simp

theorem filterKeys_append (ns : Option Str) : ∀ (ks ls : List Str),
    filterKeys ns (ks ++ ls) = filterKeys ns ks ++ filterKeys ns ls := by
  intro ks ls
  induction ks with
  | nil => rfl
  | cons p rest ih =>
    simp only [List.cons_append, filterKeys]
    split <;> simp [ih]

theorem getStorageKeys_setItem_invisible {b : Option Str} {p : Str}
    (hp : visibleKey b p = false) (st : Store) (v : Str) :
    getStorageKeys b (Store.setItem st p v) = getStorageKeys b st := by
  unfold getStorageKeys
  rw [mapFst_setItem]
  split
  · rfl
  · rw [filterKeys_append]
    simp [filterKeys, hp]

theorem visibleKey_encode_self (n k : Str) :
    visibleKey (some n) (keyWithNamespace (some n) k) = true := by
  simp only [visibleKey, keyWithNamespace]
  rw [startsWithKey_iff]
  exact ⟨k, by simp⟩

theorem getItem_fold_remove {a : Option Str} {p : Str} :
    ∀ (L : List Str) (st : Store), (∀ k ∈ L, keyWithNamespace a k ≠ p) →
    Store.getItem (L.foldl (fun acc k => acc.removeItem (keyWithNamespace a k)) st) p =
      st.getItem p := by
  intro L
  induction L with
  | nil => intro st _; rfl
  | cons k0 rest ih =>
    intro st h
    simp only [List.foldl_cons]
    rw [ih _ (fun k hk => h k (List.mem_cons_of_mem _ hk))]
    exact getItem_removeItem_ne (h k0 (List.mem_cons_self _ _)) st

theorem goodNs_some {n : Str} (h : goodNs (some n) = true) :
    n ≠ [] ∧ '/' ∉ n ∧ ∀ c ∈ n, isLineTerm c = false := by
  simp only [goodNs, Bool.and_eq_true, Bool.not_eq_true'] at h
  refine ⟨?_, cleanChars_not_slash h.2, fun c hc => cleanChars_not_lineTerm h.2 hc⟩
  cases n with
  | nil => simp at h
  | cons c cs => simp

theorem goodKey_spec {k : Str} (h : goodKey k = true) :
    k ≠ [] ∧ '/' ∉ k ∧ ∀ c ∈ k, isLineTerm c = false := by
  simp only [goodKey, Bool.and_eq_true, Bool.not_eq_true'] at h
  refine ⟨?_, cleanChars_not_slash h.2, fun c hc => cleanChars_not_lineTerm h.2 hc⟩
  cases k with
  | nil => simp at h
  | cons c cs => simp

theorem drop_encode : ∀ (n t : Str), (n ++ '/' :: t).drop (n.length + 1) = t := by
  intro n t
  induction n with
  | nil => rfl
  | cons c n' ih => simp [ih]

theorem get?_none_of_le : ∀ (l : List Str) (n : Nat), l.length ≤ n → l.get? n = none := by
  intro l
  induction l with
  | nil => intro n _; rfl
  | cons a rest ih =>
    intro n h
    cases n with
    | zero => simp at h
    | succ m => exact ih m (by simpa using h)

theorem encode_not_visible_other {a b : Option Str} {k : Str}
    (hab : a ≠ b) (hga : goodNs a = true) (hgb : goodNs b = true)
    (hgk : goodKey k = true) :
    visibleKey b (keyWithNamespace a k) = false := by
  obtain ⟨hk0, hkS, hkT⟩ := goodKey_spec hgk
  match a, b with
  | none, none => exact absurd rfl hab
  | some n, some m =>
    obtain ⟨-, hnS, -⟩ := goodNs_some hga
    obtain ⟨-, hmS, -⟩ := goodNs_some hgb
    simp only [visibleKey, keyWithNamespace]
    cases hsw : startsWithKey (n ++ '/' :: k) (m ++ ['/']) with
    | false => rfl
    | true =>
      obtain ⟨t, ht⟩ := (startsWithKey_iff _ _).mp hsw
      have ht' : n ++ '/' :: k = m ++ '/' :: t := by simpa using ht
      have := slash_split_inj n m k t hnS hmS ht'
      exact absurd (congrArg some this.1) hab
  | some n, none =>
    obtain ⟨hn0, hnS, hnT⟩ := goodNs_some hga
    rcases List.eq_nil_or_concat' n with rfl | ⟨x, a0, rfl⟩
    · exact absurd rfl hn0
    · cases k with
      | nil => exact absurd rfl hk0
      | cons c0 k' =>
        simp only [visibleKey, keyWithNamespace]
        have hwin := hasVisibleSlash_window (hnT a0 (by simp)) (hkT c0 (by simp)) x k'
        have harr : (x ++ [a0]) ++ '/' :: c0 :: k' = x ++ a0 :: '/' :: c0 :: k' := by simp
        rw [harr, hwin]
        rfl
  | none, some m =>
    simp only [visibleKey, keyWithNamespace]
    cases hsw : startsWithKey k (m ++ ['/']) with
    | false => rfl
    | true =>
      obtain ⟨t, ht⟩ := (startsWithKey_iff _ _).mp hsw
      have : '/' ∈ k := by rw [ht]; simp
      exact absurd this hkS

theorem mem_getStorageKeys_getItem {ns : Option Str} {k : Str} {st : Store}
    (h : k ∈ getStorageKeys ns st) :
    ∃ s, st.getItem (keyWithNamespace ns k) = some s := by
  match ns with
  | none =>
    obtain ⟨-, hmem⟩ := mem_filterKeys_none h
    exact getItem_of_mem hmem
  | some n =>
    obtain ⟨p, hp, hsw, hk⟩ := mem_filterKeys_some h
    obtain ⟨t, ht⟩ := (startsWithKey_iff _ _).mp hsw
    have hpt : p = n ++ '/' :: t := by simpa using ht
    have hkt : k = t := by rw [hk, hpt, drop_encode]
    have hkw : keyWithNamespace (some n) k = p := by
      rw [keyWithNamespace, hkt, hpt]
    rw [hkw]
    exact getItem_of_mem hp

theorem quotaStore_setItem_ok {qst qst' : QuotaStore} {k v : Str}
    (h : QuotaStore.setItem qst k v = .ok qst') :
    qst'.entries = qst.entries.setItem k v ∧ qst'.quota = qst.quota := by
  unfold QuotaStore.setItem at h
  split at h
  · cases h; exact ⟨rfl, rfl⟩
  · split at h
    · cases h; rename_i hq; exact ⟨rfl, hq.symm⟩
    · split at h
      · cases h; rename_i hq _; exact ⟨rfl, hq.symm⟩
      · cases h

theorem quotaNone_setItem (st : Store) (k v : Str) :
    QuotaStore.setItem ⟨st, none⟩ k v = .ok ⟨Store.setItem st k v, none⟩ := by
  unfold QuotaStore.setItem
  split <;> rfl

/-- C7: codec round trip: for every non-null namespace n and logical key k,
the logical-key extraction of getStorageKeys (strip the namespace and the
slash) undoes the encoding of keyWithNamespace (prefix the namespace and a
slash). -/
theorem c7_codec_roundtrip (n k : Str) :
    logicalKey (some n) (keyWithNamespace (some n) k) = k := by
  simp only [logicalKey, keyWithNamespace]
  exact drop_encode n k

/-- C9: a facade constructed with the empty-string namespace is normalized by
the constructor to the null namespace, so hasNamespace is false, the
namespace is null, keys are encoded without a prefix, and the key filter is
the null-namespace filter. -/
theorem c9_empty_namespace :
    normNamespace (some []) = normNamespace none ∧
    hasNamespaceF (normNamespace (some [])) = false ∧
    (∀ k : Str, keyWithNamespace (normNamespace (some [])) k = k) ∧
    (∀ st : Store, getStorageKeys (normNamespace (some [])) st = getStorageKeys none st) :=
  ⟨rfl, rfl, fun _ => rfl, fun _ => rfl⟩

/-- C8: the facade's key method indexes the filtered key array, so within
range it yields the string, but out of range it evaluates to undefined, not
to null as the claim and the declared return type say: on the empty view,
index 1 and index -1 both give undefined. -/
theorem c8_keyAt_undefined :
    keyAt none [(['a'], ['1'])] 0 = JsValue.str ['a'] ∧
    keyAt none [(['a'], ['1'])] 1 = JsValue.jsUndefined ∧
    keyAt none [(['a'], ['1'])] (-1) = JsValue.jsUndefined ∧
    JsValue.jsUndefined ≠ JsValue.nullv := by decide

/-- C10: MemoryStorage.key returns null for every index at or past the number
of entries, and also returns null when the key at an in-range position is the
empty string (the or-null coalescing treats the empty string as falsy), so a
null result does not imply the index is out of range. -/
theorem c10_memory_key_empty_string :
    (∀ (st : Store) (n : Nat), st.length ≤ n → memKey st (Int.ofNat n) = none) ∧
    (∀ (st : Store) (n : Nat), (st.map Prod.fst).get? n = some ([] : Str) →
      memKey st (Int.ofNat n) = none) ∧
    (∃ (st : Store) (n : Nat), n < st.length ∧ memKey st (Int.ofNat n) = none) := by
  refine ⟨?_, ?_, ⟨[(([] : Str), ['1'])], 0, by decide, by decide⟩⟩
  · intro st n h
    simp only [memKey]
    rw [get?_none_of_le _ n (by simpa using h)]
  · intro st n h
    simp only [memKey, h]
    rfl

/-- Witness for C10 at concrete stores: an out-of-range index and an in-range
empty-string key both give null. -/
theorem c10_witness :
    memKey [(['a'], ['1'])] (Int.ofNat 3) = none ∧
    memKey [(([] : Str), ['1'])] (Int.ofNat 0) = none := by
  constructor
  · exact c10_memory_key_empty_string.1 [(['a'], ['1'])] 3 (by decide)
  · exact c10_memory_key_empty_string.2.1 [(([] : Str), ['1'])] 0 (by decide)

/-- C3: set-get round trip: when the value serializes losslessly (stringify
gives a text that parses back to the value) and set returned true, a
subsequent get of the same key on the same facade returns the value. -/
theorem c3_set_get_roundtrip {V : Type} (stringify : V → Except Fault Str)
    (parse : Str → Except Fault V) (ns : Option Str) (qst qst' : QuotaStore)
    (k : Str) (v : V) (s : Str) (dflt : V)
    (hs : stringify v = .ok s) (hp : parse s = .ok v)
    (hset : setVal stringify ns qst k v = .ok (true, qst')) :
    getVal parse ns qst'.entries k dflt = .ok v := by
  simp only [setVal, hs] at hset
  cases hq : QuotaStore.setItem qst (keyWithNamespace ns k) s with
  | error f => rw [hq] at hset; simp at hset
  | ok q =>
    rw [hq] at hset
    simp only [Except.ok.injEq, Prod.mk.injEq, true_and] at hset
    subst hset
    have hent := (quotaStore_setItem_ok hq).1
    simp only [getVal, hent, getItem_setItem_self]
    exact hp

/-- Witness for C3: a concrete number stored and read back on a memory-backed
facade. -/
theorem c3_witness :
    demoStringify (DemoVal.num 2) = .ok ['*', '*'] ∧
    demoParse ['*', '*'] = .ok (DemoVal.num 2) ∧
    getVal demoParse none (QuotaStore.mk [(['k'], ['*', '*'])] none).entries ['k']
      (DemoVal.num 0) = .ok (DemoVal.num 2) := by
  refine ⟨rfl, rfl, ?_⟩
  exact c3_set_get_roundtrip demoStringify demoParse none ⟨[], none⟩
    ⟨[(['k'], ['*', '*'])], none⟩ ['k'] (DemoVal.num 2) ['*', '*'] (DemoVal.num 0)
    rfl rfl rfl

/-- C2 (amended): set never lets any fault escape: it returns true when both
the serialization and the backing write succeed, and returns the false
sentinel both for a capacity fault of the backing store and for any fault of
the serializer, because the try block wraps the JSON.stringify call as well. -/
theorem c2_set_fault_policy {V : Type} (stringify : V → Except Fault Str)
    (ns : Option Str) (qst : QuotaStore) (k : Str) (v : V) :
    (∀ f : Fault, setVal stringify ns qst k v ≠ .error f) ∧
    (∀ (s : Str) (qst' : QuotaStore), stringify v = .ok s →
      QuotaStore.setItem qst (keyWithNamespace ns k) s = .ok qst' →
      setVal stringify ns qst k v = .ok (true, qst')) ∧
    (∀ f : Fault, stringify v = .error f →
      setVal stringify ns qst k v = .ok (false, qst)) ∧
    (∀ (s : Str) (f : Fault), stringify v = .ok s →
      QuotaStore.setItem qst (keyWithNamespace ns k) s = .error f →
      setVal stringify ns qst k v = .ok (false, qst)) := by
  refine ⟨?_, ?_, ?_, ?_⟩
  · intro f h
    cases hs : stringify v with
    | error g => simp only [setVal, hs] at h; exact Except.noConfusion h
    | ok s =>
      simp only [setVal, hs] at h
      cases hq : QuotaStore.setItem qst (keyWithNamespace ns k) s with
      | error g => rw [hq] at h; exact Except.noConfusion h
      | ok q => rw [hq] at h; exact Except.noConfusion h
  · intro s qst' hs hq; simp only [setVal, hs, hq]
  · intro f hs; simp only [setVal, hs]
  · intro s f hs hq; simp only [setVal, hs, hq]

/-- Counterexample for C2 as stated: a value the serializer rejects (the model
of a cyclic structure) does not make set propagate the fault; the catch turns
it into the false sentinel with the store untouched. -/
theorem c2_counterexample :
    demoStringify DemoVal.cyclic = .error Fault.badValue ∧
    setVal demoStringify none ⟨[], none⟩ ['k'] DemoVal.cyclic = .ok (false, ⟨[], none⟩) ∧
    setVal demoStringify none ⟨[], none⟩ ['k'] DemoVal.cyclic ≠ .error Fault.badValue := by
  refine ⟨rfl, rfl, ?_⟩
  intro h
  exact Except.noConfusion h

/-- Witness for C2 at a full quota-limited store: the capacity fault of the
backing write becomes the false sentinel. -/
theorem c2_witness :
    demoStringify (DemoVal.num 1) = .ok ['*'] ∧
    QuotaStore.setItem ⟨[(['a'], ['1'])], some 1⟩ ['b'] ['*'] = .error .quotaExceeded ∧
    setVal demoStringify none ⟨[(['a'], ['1'])], some 1⟩ ['b'] (DemoVal.num 1) =
      .ok (false, ⟨[(['a'], ['1'])], some 1⟩) := by
  refine ⟨rfl, rfl, ?_⟩
  exact (c2_set_fault_policy demoStringify none ⟨[(['a'], ['1'])], some 1⟩ ['b']
    (DemoVal.num 1)).2.2.2 ['*'] .quotaExceeded rfl rfl

/-- C1 (amended): over one shared backing store, clear on the a-facade
unconditionally never removes a physical key outside the a-view, in
particular none visible only through the b-facade; and for distinct
namespaces a and b that contain no slash and no line terminator and a
non-empty logical key of such characters, the physical key written through
the a-facade is invisible to the b-facade and leaves its key list
unchanged. -/
theorem c1_namespace_disjointness (a b : Option Str) :
    (∀ (st : Store) (p : Str), visibleKey b p = true → visibleKey a p = false →
      Store.getItem (clearFacade a st) p = Store.getItem st p) ∧
    (∀ k : Str, a ≠ b → goodNs a = true → goodNs b = true → goodKey k = true →
      visibleKey b (keyWithNamespace a k) = false ∧
      ∀ (st : Store) (v : Str),
        getStorageKeys b (Store.setItem st (keyWithNamespace a k) v) =
          getStorageKeys b st) := by
  constructor
  · intro st p _ hpa
    unfold clearFacade
    apply getItem_fold_remove
    intro k0 hk0
    cases a with
    | some n =>
      intro hkp
      rw [← hkp, visibleKey_encode_self] at hpa
      cases hpa
    | none =>
      intro hkp
      have hvk := (mem_filterKeys_none hk0).1
      rw [← hkp] at hpa
      simp only [keyWithNamespace, visibleKey] at hpa
      rw [hvk] at hpa
      cases hpa
  · intro k hab hga hgb hgk
    have hvis := encode_not_visible_other hab hga hgb hgk
    exact ⟨hvis, fun st v => getStorageKeys_setItem_invisible hvis st v⟩

/-- Counterexample for C1 as stated: the null facade's set does not filter, so
writing the logical key x-slash-y through the null facade creates a physical
key that the facade with namespace x surfaces in its keys as y. -/
theorem c1_counterexample :
    visibleKey (some ['x']) (keyWithNamespace none ['x', '/', 'y']) = true ∧
    getStorageKeys (some ['x'])
      (Store.setItem [] (keyWithNamespace none ['x', '/', 'y']) ['0']) = [['y']] ∧
    getStorageKeys (some ['x']) ([] : Store) = [] := by decide

/-- Witness for C1 at a named facade and the null facade with clean names. -/
theorem c1_witness :
    visibleKey none (keyWithNamespace (some ['a']) ['k']) = false ∧
    getStorageKeys none (Store.setItem [] (keyWithNamespace (some ['a']) ['k']) ['1']) =
      getStorageKeys none [] ∧
    Store.getItem (clearFacade (some ['a']) [(['p'], ['1'])]) ['p'] =
      Store.getItem [(['p'], ['1'])] ['p'] := by
  have h := c1_namespace_disjointness (some ['a']) none
  have hk := h.2 ['k'] (by decide) (by decide) (by decide) (by decide)
  exact ⟨hk.1, hk.2 [] ['1'], h.1 [(['p'], ['1'])] ['p'] (by decide) (by decide)⟩

/-- C4 (amended): any physical key containing a slash whose immediate
neighbours on both sides are non-line-terminator characters is excluded from
the null facade's keys, length and iteration, even when written directly to
the backing store. -/
theorem c4_null_view_exclusion {V : Type} (parse : Str → Except Fault V)
    (x y : Str) (a c : Char) (ha : isLineTerm a = false) (hc : isLineTerm c = false)
    (st : Store) (v : Str) :
    (x ++ a :: '/' :: c :: y) ∉ getStorageKeys none st ∧
    getStorageKeys none (Store.setItem st (x ++ a :: '/' :: c :: y) v) =
      getStorageKeys none st ∧
    lengthOf none (Store.setItem st (x ++ a :: '/' :: c :: y) v) = lengthOf none st ∧
    iterPairs parse none (Store.setItem st (x ++ a :: '/' :: c :: y) v) =
      iterPairs parse none st := by
  have hwin := hasVisibleSlash_window ha hc x y
  have hinv : visibleKey none (x ++ a :: '/' :: c :: y) = false := by
    simp [visibleKey, hwin]
  refine ⟨?_, getStorageKeys_setItem_invisible hinv st v, ?_, ?_⟩
  · intro hmem
    have hvk := (mem_filterKeys_none hmem).1
    rw [hwin] at hvk
    cases hvk
  · unfold lengthOf
    rw [getStorageKeys_setItem_invisible hinv st v]
  · unfold iterPairs
    rw [getStorageKeys_setItem_invisible hinv st v]
    apply List.map_congr_left
    intro k hk
    have hks := (mem_filterKeys_none hk).1
    have hne : k ≠ x ++ a :: '/' :: c :: y := by
      intro hkp
      rw [hkp, hwin] at hks
      cases hks
    simp only [proxyGet, keyWithNamespace]
    rw [getItem_setItem_ne hne st v]

/-- Counterexample for C4 as stated: the physical key newline-slash-a has
both segments non-empty, yet the regular expression's dot does not match the
newline, so the key stays visible in the null view and is counted by
length. -/
theorem c4_counterexample :
    (['\n'] : Str) ≠ [] ∧ (['a'] : Str) ≠ [] ∧
    getStorageKeys none [(['\n', '/', 'a'], ['1'])] = [['\n', '/', 'a']] ∧
    lengthOf none [(['\n', '/', 'a'], ['1'])] = 1 := by decide

/-- Witness for C4 at the concrete key x-slash-y over a one-entry store. -/
theorem c4_witness :
    isLineTerm 'x' = false ∧ isLineTerm 'y' = false ∧
    (([] : Str) ++ 'x' :: '/' :: 'y' :: []) ∉ getStorageKeys none [(['x', '/', 'y'], ['1'])] ∧
    lengthOf none (Store.setItem [(['x', '/', 'y'], ['1'])] ([] ++ 'x' :: '/' :: 'y' :: []) ['2']) =
      lengthOf none [(['x', '/', 'y'], ['1'])] := by
  have h := c4_null_view_exclusion demoParse [] [] 'x' 'y' (by decide) (by decide)
    [(['x', '/', 'y'], ['1'])] ['2']
  exact ⟨by decide, by decide, h.1, h.2.2.1⟩

/-- C5 (amended): on a null-namespace facade, set of a logical key containing
a slash with non-line-terminator neighbours does store the entry at that
physical key — has reports it and get returns the parsed stored text — but
the key is absent from keys (and hence from length and iteration). -/
theorem c5_null_slash_key {V : Type} (stringify : V → Except Fault Str)
    (parse : Str → Except Fault V) (x y : Str) (a c : Char)
    (ha : isLineTerm a = false) (hc : isLineTerm c = false)
    (st : Store) (v : V) (s : Str) (hs : stringify v = .ok s) (dflt : V) :
    setVal stringify none ⟨st, none⟩ (x ++ a :: '/' :: c :: y) v =
      .ok (true, ⟨Store.setItem st (x ++ a :: '/' :: c :: y) s, none⟩) ∧
    hasVal none (Store.setItem st (x ++ a :: '/' :: c :: y) s)
      (x ++ a :: '/' :: c :: y) = true ∧
    getVal parse none (Store.setItem st (x ++ a :: '/' :: c :: y) s)
      (x ++ a :: '/' :: c :: y) dflt = parse s ∧
    (x ++ a :: '/' :: c :: y) ∉
      getStorageKeys none (Store.setItem st (x ++ a :: '/' :: c :: y) s) := by
  have hwin := hasVisibleSlash_window ha hc x y
  refine ⟨?_, ?_, ?_, ?_⟩
  · unfold setVal
    rw [hs]
    simp only [keyWithNamespace]
    rw [quotaNone_setItem]
  · unfold hasVal
    simp only [keyWithNamespace]
    rw [getItem_setItem_self]
    rfl
  · unfold getVal
    simp only [keyWithNamespace]
    rw [getItem_setItem_self]
  · intro hmem
    have hvk := (mem_filterKeys_none hmem).1
    rw [hwin] at hvk
    cases hvk

/-- Counterexample for C5 as stated: after the null facade sets the key
x-slash-y, the entry is stored and observable: has is true and get returns
the stored value, not the default. -/
theorem c5_counterexample :
    setVal demoStringify none ⟨[], none⟩ ['x', '/', 'y'] (DemoVal.num 1) =
      .ok (true, ⟨[(['x', '/', 'y'], ['*'])], none⟩) ∧
    hasVal none [(['x', '/', 'y'], ['*'])] ['x', '/', 'y'] = true ∧
    getVal demoParse none [(['x', '/', 'y'], ['*'])] ['x', '/', 'y'] (DemoVal.num 0) =
      .ok (DemoVal.num 1) ∧
    getVal demoParse none [(['x', '/', 'y'], ['*'])] ['x', '/', 'y'] (DemoVal.num 0) ≠
      .ok (DemoVal.num 0) := by decide

/-- Witness for C5 at a concrete slash key on the empty store. -/
theorem c5_witness :
    hasVal none (Store.setItem [] (['u'] ++ 'x' :: '/' :: 'y' :: ['w']) ['*'])
      (['u'] ++ 'x' :: '/' :: 'y' :: ['w']) = true ∧
    (['u'] ++ 'x' :: '/' :: 'y' :: ['w']) ∉
      getStorageKeys none (Store.setItem [] (['u'] ++ 'x' :: '/' :: 'y' :: ['w']) ['*']) := by
  have h := c5_null_slash_key demoStringify demoParse ['u'] ['w'] 'x' 'y'
    (by decide) (by decide) [] (DemoVal.num 1) ['*'] rfl (DemoVal.num 0)
  exact ⟨h.2.1, h.2.2.2⟩

/-- C6 (amended): for a snapshot whose visible logical keys do not collide
with any declared member of the facade object, the pairs produced by the
iterator equal, key for key, the pairs obtained by calling get on every key
of the same snapshot. -/
theorem c6_iteration_snapshot {V : Type} (parse : Str → Except Fault V)
    (ns : Option Str) (st : Store) (dflt : V)
    (h : ∀ k ∈ getStorageKeys ns st, k ∉ declaredMembers) :
    iterPairs parse ns st = getPairs parse ns st dflt := by
  unfold iterPairs getPairs
  apply List.map_congr_left
  intro k hk
  obtain ⟨s, hs⟩ := mem_getStorageKeys_getItem hk
  unfold proxyGet getVal
  rw [if_neg (h k hk), hs]

/-- Counterexample for C6 as stated: a stored logical key named get collides
with the declared method get; the iterator yields the member (the function),
while the explicit get returns the parsed stored value, so the pair sets
differ. -/
theorem c6_counterexample :
    ("get".data ∈ getStorageKeys none [("get".data, ['*'])]) ∧
    iterPairs demoParse none [("get".data, ['*'])] =
      [(DynVal.member "get".data, "get".data)] ∧
    getPairs demoParse none [("get".data, ['*'])] (DemoVal.num 0) =
      [(DynVal.parsed (.ok (DemoVal.num 1)), "get".data)] ∧
    iterPairs demoParse none [("get".data, ['*'])] ≠
      getPairs demoParse none [("get".data, ['*'])] (DemoVal.num 0) := by decide

/-- Witness for C6 at a one-entry snapshot free of member collisions. -/
theorem c6_witness :
    (∀ k ∈ getStorageKeys none [(['k'], ['*'])], k ∉ declaredMembers) ∧
    iterPairs demoParse none [(['k'], ['*'])] =
      getPairs demoParse none [(['k'], ['*'])] (DemoVal.num 0) :=
  ⟨by decide, c6_iteration_snapshot demoParse none [(['k'], ['*'])] (DemoVal.num 0) (by decide)⟩

end WebStorageModel
